import Mathlib

set_option maxHeartbeats 1000000
set_option maxRecDepth 4096

/-! Shallow embedding of the CommandLineParser header of this repository.
    Each definition mirrors the corresponding C++ member; comments name the
    source function they were translated from. -/

/-- Model of the C locale isspace predicate used by std::stoi (via strtol). -/
def isCSpace (c : Char) : Bool :=
  c == ' ' || c == '\t' || c == '\n' || c == '\x0b' || c == '\x0c' || c == '\r'

/-- Numeric value of a run of decimal digit characters. -/
def digitsToNat (ds : List Char) : Nat :=
  ds.foldl (fun a c => a * 10 + (c.toNat - 48)) 0

/-- Model of std::stoi on a token: some value when stoi returns normally,
    none when it throws (invalid_argument when no digits can be consumed,
    out_of_range when the parsed value does not fit in a 32-bit int). -/
def stoiResult (s : String) : Option Int :=
  let t := s.data.dropWhile isCSpace
  let signed : Bool × List Char :=
    match t with
    | '-' :: r => (true, r)
    | '+' :: r => (false, r)
    | _ => (false, t)
  let ds := signed.2.takeWhile Char.isDigit
  if ds.isEmpty then none
  else
    let v : Int := if signed.1 then -(digitsToNat ds : Int) else (digitsToNat ds : Int)
    if v < -2147483648 || 2147483647 < v then none else some v

/-- True exactly when std::stoi on the token does not throw. -/
def stoiOk (s : String) : Bool := (stoiResult s).isSome

/-- CommandLineParser::Value.  The C++ class stores a validity flag, a single
    string and a string vector; which of the two payloads is meaningful is
    decided by the constructor that was used. -/
structure Value where
  valid_ : Bool
  value_ : String
  values_ : List String
deriving DecidableEq, Repr

/-- Value default constructor: valid_ is false, payloads empty. -/
def Value.invalidValue : Value := { valid_ := false, value_ := "", values_ := [] }

/-- Value(std::string): validity is non-emptiness of the string. -/
def Value.ofString (s : String) : Value :=
  { valid_ := !s.isEmpty, value_ := s, values_ := [] }

/-- Value(std::vector of std::string): value_ is the first element or empty,
    validity is always true. -/
def Value.ofList (l : List String) : Value :=
  { valid_ := true, value_ := l.headD "", values_ := l }

/-- Value::operator bool. -/
def Value.toBool (v : Value) : Bool := v.valid_

/-- Value::size. -/
def Value.size (v : Value) : Nat := v.values_.length

/-- Value::operator[] on a multiple value: a single Value at the index, or an
    invalid Value when the index is out of range. -/
def Value.sub (v : Value) (i : Nat) : Value :=
  match v.values_.get? i with
  | some s => Value.ofString s
  | none => Value.invalidValue

/-- Value::ToInt, modelled as an Option since the C++ version may throw. -/
def Value.toIntRes (v : Value) : Option Int := stoiResult v.value_

/-- CommandLineParser::Argument. -/
structure Argument where
  name : String
  note : String
  only_number : Bool
  is_package : Bool
deriving DecidableEq, Repr

/-- CommandLineParser::Option (named COption to avoid the Lean Option type). -/
structure COption where
  name : String
  short_name : String
  note : String
  value_count : Nat
  only_number : Bool
  index : Nat
deriving DecidableEq, Repr

/-- The CommandLineParser object state.  The std::map members are modelled as
    association lists; all reads from them in the source go through count,
    find or operator[] by key, so only the key-to-value mapping is relevant
    (map iteration in the source only transfers entries whose keys never
    collide, see the comments at bindOptions and UsageInfo). -/
structure CommandLineParser where
  app_name_ : String
  app_path_ : String
  app_note_ : String
  have_argument_pack_ : Bool
  all_arguments_ : List Argument
  all_options_ : List COption
  short_name_to_name_of_option_ : List (String × String)
  cur_values_ : List (String × Value)
deriving DecidableEq, Repr

/-- Lookup by key in an association-list model of std::map. -/
def mapFind? {α : Type} (m : List (String × α)) (k : String) : Option α :=
  (m.find? (fun p => p.1 == k)).map (fun p => p.2)

/-- Keyed assignment in an association-list model of std::map:
    replaces the entry if the key is present, otherwise appends it. -/
def mapInsert {α : Type} (m : List (String × α)) (k : String) (v : α) :
    List (String × α) :=
  if m.any (fun p => p.1 == k) then
    m.map (fun p => if p.1 == k then (k, v) else p)
  else m ++ [(k, v)]

/-- CommandLineParser constructor. -/
def mkParser (command_name : String) (command_note : String) : CommandLineParser :=
  { app_name_ := command_name, app_path_ := "", app_note_ := command_note,
    have_argument_pack_ := false, all_arguments_ := [], all_options_ := [],
    short_name_to_name_of_option_ := [], cur_values_ := [] }

/-- CommandLineParser::VerifyName: non-empty, starts with a letter, and every
    character is alphanumeric or an underscore. -/
def VerifyName (name : String) : Bool :=
  match name.data with
  | [] => false
  | c :: _ => c.isAlpha && name.data.all (fun ch => ch.isAlphanum || ch == '_')

/-- CommandLineParser::AddArgument.  Returns the C++ bool result paired with
    the updated object state. -/
def AddArgument (st : CommandLineParser) (name : String) (note : String)
    (only_number : Bool) : Bool × CommandLineParser :=
  if name.isEmpty || 32 < name.length || !(VerifyName name) then (false, st)
  else if st.all_arguments_.any (fun a => a.name == name) then (false, st)
  else
    (true, { st with all_arguments_ := st.all_arguments_ ++
        [{ name := name, note := note, only_number := only_number, is_package := false }] })

/-- CommandLineParser::AddArgumentPack. -/
def AddArgumentPack (st : CommandLineParser) (name : String) (note : String)
    (only_number : Bool) : Bool × CommandLineParser :=
  if st.have_argument_pack_ then (false, st)
  else if name.isEmpty || 32 < name.length || !(VerifyName name) then (false, st)
  else if st.all_arguments_.any (fun a => a.name == name) then (false, st)
  else
    (true, { st with
      all_arguments_ := st.all_arguments_ ++
        [{ name := name, note := note, only_number := only_number, is_package := true }],
      have_argument_pack_ := true })

/-- Lookup of a long option name, modelling all_options_.count / operator[]. -/
def findOption (st : CommandLineParser) (name : String) : Option COption :=
  st.all_options_.find? (fun o => o.name == name)

/-- Lookup in short_name_to_name_of_option_. -/
def lookupShort (st : CommandLineParser) (short_name : String) : Option String :=
  mapFind? st.short_name_to_name_of_option_ short_name

/-- CommandLineParser::AddOption.  The index member receives the map size
    after insertion minus one, which equals the number of previously
    registered options. -/
def AddOption (st : CommandLineParser) (name : String) (value_count : Nat)
    (short_name : String) (note : String) (only_number : Bool) :
    Bool × CommandLineParser :=
  if (findOption st name).isSome then (false, st)
  else if name.length < 3 || 32 < name.length ||
      !(name.data.get? 0 == some '-') || !(name.data.get? 1 == some '-') ||
      !(VerifyName (String.mk (name.data.drop 2))) then (false, st)
  else if !short_name.isEmpty && (lookupShort st short_name).isSome then (false, st)
  else if !short_name.isEmpty && (short_name.length < 2 || 16 < short_name.length ||
      !(short_name.data.get? 0 == some '-') ||
      !(VerifyName (String.mk (short_name.data.drop 1)))) then (false, st)
  else
    (true, { st with
      all_options_ := st.all_options_ ++
        [{ name := name, short_name := short_name, note := note,
           value_count := value_count, only_number := only_number,
           index := st.all_options_.length }],
      short_name_to_name_of_option_ :=
        if short_name.isEmpty then st.short_name_to_name_of_option_
        else mapInsert st.short_name_to_name_of_option_ short_name name })

/-- CommandLineParser::operator[] (lookup by name in cur_values_). -/
def lookupValue (st : CommandLineParser) (name : String) : Value :=
  (mapFind? st.cur_values_ name).getD Value.invalidValue

/-- The interim option capture of Parse: cur_options, a std::map from long
    option name to the list of captured value tokens, modelled as an
    association list in first-insertion order. -/
abbrev OptMap : Type := List (String × List String)

/-- Modelling the expression cur_options[k] evaluated for its side effect:
    default-constructs an empty entry when the key is absent. -/
def osEnsure (os : OptMap) (k : String) : OptMap :=
  if os.any (fun p => p.1 == k) then os else os ++ [(k, [])]

/-- Update of one cur_options entry: appends the values when the key matches. -/
def osAppendEntry (k : String) (vs : List String) (p : String × List String) :
    String × List String :=
  if p.1 == k then (p.1, p.2 ++ vs) else p

/-- Modelling cur_options[k].push_back for each element of vs in order. -/
def osAppend (os : OptMap) (k : String) (vs : List String) : OptMap :=
  os.map (osAppendEntry k vs)

/-- Resolution of one raw token against the option tables, from the head of
    the Parse token loop: the registered long name itself, the long name an
    alias maps to, or the empty string meaning the token is positional. -/
def resolveOption (st : CommandLineParser) (tok : String) : String :=
  if (findOption st tok).isSome then tok
  else
    match lookupShort st tok with
    | some n => n
    | none => ""

/-- Arity of a resolved option, modelling all_options_[name].value_count
    (a missing key would give a default-constructed Option, count 0). -/
def optArity (st : CommandLineParser) (name : String) : Nat :=
  ((findOption st name).map (fun o => o.value_count)).getD 0

/-- Numeric flag of a resolved option, modelling all_options_[name].only_number. -/
def optOnlyNumber (st : CommandLineParser) (name : String) : Bool :=
  ((findOption st name).map (fun o => o.only_number)).getD false

/-- Mode of the token loop: scanning at top level, or inside the fixed-arity
    value window of an option with some values still to consume. -/
inductive TMode where
  | top : TMode
  | inOpt (oname : String) (onum : Bool) (remaining : Nat) : TMode
deriving DecidableEq, Repr

/-- The token loop of CommandLineParser::Parse (the for loop over args with
    the nested value-consuming loop), written as a state machine consuming
    one token per step.  Returns the positional tokens and the option
    captures, or none when the loop calls show_usage_info_and_exit (a value
    failing the numeric check, or the input ending inside a value window). -/
def tokenLoop (st : CommandLineParser) :
    List String → TMode → List String → OptMap → Option (List String × OptMap)
  | [], TMode.top, ps, os => some (ps, os)
  | [], TMode.inOpt _ _ _, _, _ => none
  | t :: rest, TMode.top, ps, os =>
    let oname := resolveOption st t
    if oname = "" then tokenLoop st rest TMode.top (ps ++ [t]) os
    else
      let os2 := osEnsure os oname
      let a := optArity st oname
      if a = 0 then tokenLoop st rest TMode.top ps os2
      else tokenLoop st rest (TMode.inOpt oname (optOnlyNumber st oname) a) ps os2
  | v :: rest, TMode.inOpt oname onum k, ps, os =>
    if onum && !(stoiOk v) then none
    else
      let os2 := osAppend os oname [v]
      if k ≤ 1 then tokenLoop st rest TMode.top ps os2
      else tokenLoop st rest (TMode.inOpt oname onum (k - 1)) ps os2

/-- Outcome of one validation step or of a whole validation pass. -/
inductive ValOutcome where
  | okV : ValOutcome
  | fatalV : ValOutcome
  | ubReadV : ValOutcome
deriving DecidableEq, Repr

/-- One numeric check of the validator: reads cur_arguments[j] only when the
    numeric flag is set; an out-of-range vector read is undefined behaviour
    in the source and is reported as ubReadV. -/
def checkTok (onum : Bool) (cur : List String) (j : Nat) : ValOutcome :=
  if onum then
    match cur.get? j with
    | none => ValOutcome.ubReadV
    | some t => if stoiOk t then ValOutcome.okV else ValOutcome.fatalV
  else ValOutcome.okV

/-- The inner k-loop of the pack validation: checks pvc consecutive tokens
    starting at j against the pack numeric flag. -/
def checkPackRun (onum : Bool) (cur : List String) (j : Nat) :
    Nat → ValOutcome
  | 0 => ValOutcome.okV
  | k + 1 =>
    match checkTok onum cur j with
    | ValOutcome.okV => checkPackRun onum cur (j + 1) k
    | e => e

/-- The pack-case validation loop of Parse.  The index j advances by one per
    outer iteration (the ++j in the for header) and additionally by one per
    consumed pack token, exactly as in the source; after the pack branch this
    makes j one larger than the number of tokens consumed so far. -/
def validateArgsPack (cur : List String) (pvc : Nat) :
    List Argument → Nat → ValOutcome
  | [], _ => ValOutcome.okV
  | a :: rest, j =>
    if a.is_package then
      if pvc = 0 then ValOutcome.fatalV
      else
        match checkPackRun a.only_number cur j pvc with
        | ValOutcome.okV => validateArgsPack cur pvc rest (j + pvc + 1)
        | e => e
    else
      match checkTok a.only_number cur j with
      | ValOutcome.okV => validateArgsPack cur pvc rest (j + 1)
      | e => e

/-- The no-pack validation loop of Parse: the i-th argument is checked
    against the i-th positional token. -/
def validateArgsNoPack (cur : List String) :
    List Argument → Nat → ValOutcome
  | [], _ => ValOutcome.okV
  | a :: rest, i =>
    match checkTok a.only_number cur i with
    | ValOutcome.okV => validateArgsNoPack cur rest (i + 1)
    | e => e

/-- The pack-case binding loop of Parse.  Unlike the validation loop, j here
    advances only when a token is consumed (the for header increments only i),
    so the assignment is positionally contiguous.  The vector reads are in
    range whenever the count checks above them have passed and the argument
    list holds exactly one pack, so they are totalised with getD and
    drop/take. -/
def bindArgsPack (cur : List String) (pvc : Nat) :
    List Argument → Nat → List (String × Value) → List (String × Value)
  | [], _, m => m
  | a :: rest, j, m =>
    if a.is_package then
      bindArgsPack cur pvc rest (j + pvc)
        (mapInsert m a.name (Value.ofList ((cur.drop j).take pvc)))
    else
      bindArgsPack cur pvc rest (j + 1)
        (mapInsert m a.name (Value.ofString (cur.getD j "")))

/-- The no-pack binding loop of Parse: iterates over the positional tokens
    (whose count equals the argument count at this point) binding the i-th
    argument name to the i-th token. -/
def bindArgsNoPack (cur : List String) (args : List Argument)
    (m : List (String × Value)) : List (String × Value) :=
  match cur, args with
  | [], _ => m
  | _ :: _, [] => m
  | c :: cr, a :: ar => bindArgsNoPack cr ar (mapInsert m a.name (Value.ofString c))

/-- The option binding loop of Parse: each captured option gets a multiple
    Value under its long name, and under its short name too when one is
    registered.  The source iterates the std::map in key order; since long
    names, short names and argument names can never collide for a schema
    built through the registration API, only the final key-to-value mapping
    matters and the capture order used here yields the same lookups. -/
def bindOptions (st : CommandLineParser) (os : OptMap)
    (m : List (String × Value)) : List (String × Value) :=
  os.foldl (fun acc p =>
    let acc2 := mapInsert acc p.1 (Value.ofList p.2)
    let sn := ((findOption st p.1).map (fun o => o.short_name)).getD ""
    if sn = "" then acc2 else mapInsert acc2 sn (Value.ofList p.2)) m

/-- Insertion of an option into a list sorted by the index member. -/
def insertByIndex (o : COption) : List COption → List COption
  | [] => [o]
  | p :: rest => if o.index ≤ p.index then o :: p :: rest else p :: insertByIndex o rest

/-- The std::sort by index in UsageInfo and HelpInfo.  Registration assigns
    pairwise distinct indices, so any comparison sort produces this order. -/
def sortByIndex (l : List COption) : List COption := l.foldr insertByIndex []

/-- The argument piece of the usage line. -/
def argUsagePiece (a : Argument) : String :=
  " <" ++ a.name ++ (if a.is_package then "..." else "") ++
  (if a.only_number then ": NUM" else "") ++ ">"

/-- The option piece of the usage line. -/
def optUsagePiece (o : COption) : String :=
  " [" ++ (if o.short_name = "" then o.name else o.short_name ++ "|" ++ o.name) ++
  (List.range o.value_count).foldl
    (fun s i => s ++ (if o.only_number then " N" else " V") ++ toString (i + 1)) ""
  ++ "]"

/-- CommandLineParser::UsageInfo. -/
def UsageInfo (st : CommandLineParser) : String :=
  ("Usage: " ++ (if st.app_path_ = "" then "command" else st.app_path_)) ++
  st.all_arguments_.foldl (fun s a => s ++ argUsagePiece a) "" ++
  (sortByIndex st.all_options_).foldl (fun s o => s ++ optUsagePiece o) ""

/-- std::left with std::setw: pads the string with spaces on the right up to
    the width (no effect when already at least that long). -/
def padTo (w : Nat) (s : String) : String :=
  s ++ String.mk (List.replicate (w - s.length) ' ')

/-- The body of the print_note lambda of HelpInfo, over the note already
    split at newline characters. -/
def printNoteGo (width : Nat) : List String → String
  | [] => ""
  | [last] => if last = "" then "" else " " ++ last
  | s :: rest => " " ++ s ++ "\n" ++ padTo width " " ++ printNoteGo width rest

/-- The print_note lambda of HelpInfo. -/
def printNote (note : String) (width : Nat) : String :=
  printNoteGo width (note.splitOn "\n")

/-- The left column of an argument row of HelpInfo. -/
def argHelpLeft (a : Argument) : String :=
  " <" ++ a.name ++ (if a.is_package then "...>" else ">") ++
  (if a.only_number then ": N" else ": V")

/-- The left column of an option row of HelpInfo. -/
def optHelpLeft (o : COption) : String :=
  " [" ++ (if o.short_name = "" then o.name else o.short_name ++ "|" ++ o.name) ++
  (if 0 < o.value_count then " " else "") ++
  (List.range o.value_count).foldl
    (fun s i => s ++ (if o.only_number then "N" else "V") ++ toString (i + 1) ++
      (if i + 1 < o.value_count then " " else "")) ""
  ++ "]"

/-- The column width computation of HelpInfo: ten more than the longest left
    column, capped at fifty. -/
def helpWidth (lefts : List String) : Nat :=
  min 50 (lefts.foldl (fun w l => max w l.length) 0 + 10)

/-- One table of HelpInfo rows. -/
def helpRows (lefts : List String) (notes : List String) (width : Nat) : String :=
  (lefts.zip notes).foldl
    (fun s p => s ++ padTo width p.1 ++ printNote p.2 width ++ "\n") ""

/-- CommandLineParser::HelpInfo.  The source swaps app_name_ and app_path_
    around its UsageInfo call and swaps them back, so the usage line inside
    the help text is rendered with app_name_ in the path position. -/
def HelpInfo (st : CommandLineParser) : String :=
  let usageLine := UsageInfo { st with app_path_ := st.app_name_ } ++ "\n"
  let notePart := if st.app_note_ = "" then "" else st.app_note_ ++ "\n"
  let argPart :=
    if st.all_arguments_.isEmpty then "" else
      let lefts := st.all_arguments_.map argHelpLeft
      let width := helpWidth lefts
      "\n" ++ "Argument with \x27...\x27 is package, \x27N\x27 means number, \x27V\x27 means string: \n" ++
      helpRows lefts (st.all_arguments_.map Argument.note) width
  let optPart :=
    if st.all_options_.isEmpty then "" else
      let opts := sortByIndex st.all_options_
      let lefts := opts.map optHelpLeft
      let width := helpWidth lefts
      "\n" ++ "Option value with \x27N\x27 means number, \x27V\x27 means string: \n" ++
      helpRows lefts (opts.map COption.note) width
  usageLine ++ notePart ++ argPart ++ optPart

/-- Outcome of CommandLineParser::Parse.  The source never returns false: it
    either returns true (ok, with the updated object state), terminates the
    process via exit(0) after printing the help or usage text (showHelp,
    showUsage, carrying the printed text), terminates via exit(-1) through
    show_usage_info_and_exit (fatalErr), or performs an out-of-range
    std::vector read, which is undefined behaviour (ubRead). -/
inductive ParseOutcome where
  | fatalErr : ParseOutcome
  | showHelp (text : String) : ParseOutcome
  | showUsage (text : String) : ParseOutcome
  | ubRead : ParseOutcome
  | ok (st : CommandLineParser) : ParseOutcome
deriving DecidableEq, Repr

/-- The validation and binding phases of Parse, after tokenization.  The
    no-pack count test is an exact equality; the pack count test reproduces
    the size_t comparison cur_arguments.size() < all_arguments_.size() - 1,
    in which an empty argument list wraps around and always fails. -/
def parseAfterTokenize (st : CommandLineParser) (cur : List String)
    (os : OptMap) : ParseOutcome :=
  let D := st.all_arguments_.length
  if st.have_argument_pack_ then
    if D = 0 ∨ cur.length + 1 < D then ParseOutcome.fatalErr
    else
      let pvc := cur.length + 1 - D
      match validateArgsPack cur pvc st.all_arguments_ 0 with
      | ValOutcome.fatalV => ParseOutcome.fatalErr
      | ValOutcome.ubReadV => ParseOutcome.ubRead
      | ValOutcome.okV =>
        ParseOutcome.ok { st with
          cur_values_ := bindOptions st os (bindArgsPack cur pvc st.all_arguments_ 0 []) }
  else
    if cur.length = D then
      match validateArgsNoPack cur st.all_arguments_ 0 with
      | ValOutcome.fatalV => ParseOutcome.fatalErr
      | ValOutcome.ubReadV => ParseOutcome.ubRead
      | ValOutcome.okV =>
        ParseOutcome.ok { st with
          cur_values_ := bindOptions st os (bindArgsNoPack cur st.all_arguments_ []) }
    else ParseOutcome.fatalErr

/-- CommandLineParser::Parse.  The argv list carries the program path as its
    first element (argc is its length); app_path_ and cur_values_ are reset
    first, then the lone built-in help and usage tokens are handled, then the
    token loop, validation and binding run. -/
def Parse (st0 : CommandLineParser) (argv : List String) : ParseOutcome :=
  match argv with
  | [] => ParseOutcome.fatalErr
  | path :: rest =>
    let st := { st0 with app_path_ := path, cur_values_ := [] }
    if rest = ["--help"] ∧ findOption st "--help" = none then
      ParseOutcome.showHelp (HelpInfo st)
    else if rest = ["--usage"] ∧ findOption st "--usage" = none then
      ParseOutcome.showUsage (UsageInfo st)
    else
      match tokenLoop st rest TMode.top [] [] with
      | none => ParseOutcome.fatalErr
      | some (cur, os) => parseAfterTokenize st cur os

/-- True exactly on the ok outcome (Parse returned true). -/
def isOk (o : ParseOutcome) : Bool :=
  match o with
  | ParseOutcome.ok _ => true
  | _ => false

/-- The value list bound to a name, when Parse returned true. -/
def parsedValues (o : ParseOutcome) (name : String) : Option (List String) :=
  match o with
  | ParseOutcome.ok st => some (lookupValue st name).values_
  | _ => none

/-! Invariance of the schema accessors under the state reset at the top of
    Parse (app_path_ and cur_values_ are overwritten, the schema is not). -/

@[simp] lemma findOption_reset (st : CommandLineParser) (p : String)
    (m : List (String × Value)) (n : String) :
    findOption { st with app_path_ := p, cur_values_ := m } n = findOption st n := rfl

@[simp] lemma lookupShort_reset (st : CommandLineParser) (p : String)
    (m : List (String × Value)) (n : String) :
    lookupShort { st with app_path_ := p, cur_values_ := m } n = lookupShort st n := rfl

@[simp] lemma resolveOption_reset (st : CommandLineParser) (p : String)
    (m : List (String × Value)) (t : String) :
    resolveOption { st with app_path_ := p, cur_values_ := m } t = resolveOption st t := rfl

@[simp] lemma optArity_reset (st : CommandLineParser) (p : String)
    (m : List (String × Value)) (n : String) :
    optArity { st with app_path_ := p, cur_values_ := m } n = optArity st n := rfl

@[simp] lemma optOnlyNumber_reset (st : CommandLineParser) (p : String)
    (m : List (String × Value)) (n : String) :
    optOnlyNumber { st with app_path_ := p, cur_values_ := m } n = optOnlyNumber st n := rfl

@[simp] lemma all_arguments_reset (st : CommandLineParser) (p : String)
    (m : List (String × Value)) :
    ({ st with app_path_ := p, cur_values_ := m } : CommandLineParser).all_arguments_
      = st.all_arguments_ := rfl

@[simp] lemma have_argument_pack_reset (st : CommandLineParser) (p : String)
    (m : List (String × Value)) :
    ({ st with app_path_ := p, cur_values_ := m } : CommandLineParser).have_argument_pack_
      = st.have_argument_pack_ := rfl

/-! General lemmas about the token loop. -/

/-- A run of tokens none of which resolves to an option is appended, in
    order, to the positional list. -/
lemma tokenLoop_allPositional (st : CommandLineParser) :
    ∀ (rest ps : List String) (os : OptMap),
      (∀ t ∈ rest, resolveOption st t = "") →
      tokenLoop st rest TMode.top ps os = some (ps ++ rest, os) := by
  intro rest
  induction rest with
  | nil => intro ps os _; simp [tokenLoop]
  | cons t r ih =>
    intro ps os h
    have ht : resolveOption st t = "" := h t (by simp)
    simp only [tokenLoop, ht, if_pos rfl]
    rw [ih (ps ++ [t]) os (fun x hx => h x (by simp [hx]))]
    simp

/-- Updating one entry twice with the same key appends the concatenation. -/
lemma osAppendEntry_comp (k : String) (a b : List String) (p : String × List String) :
    osAppendEntry k b (osAppendEntry k a p) = osAppendEntry k (a ++ b) p := by
  by_cases hk : p.1 = k
  · simp [osAppendEntry, hk]
  · simp [osAppendEntry, hk]

/-- Appending value windows to the same key one after the other is the same
    as appending their concatenation. -/
lemma osAppend_osAppend (k : String) (a b : List String) :
    ∀ os : OptMap, osAppend (osAppend os k a) k b = osAppend os k (a ++ b) := by
  intro os
  induction os with
  | nil => rfl
  | cons p rest ih =>
    simp only [osAppend, List.map_cons] at ih ⊢
    rw [osAppendEntry_comp, ih]

/-- Consuming the whole value window of a non-numeric option appends the
    window to the captured entry and returns to top-level scanning. -/
lemma tokenLoop_valueRun (st : CommandLineParser) (oname : String) :
    ∀ (w rest ps : List String) (os : OptMap), w ≠ [] →
      tokenLoop st (w ++ rest) (TMode.inOpt oname false w.length) ps os
        = tokenLoop st rest TMode.top ps (osAppend os oname w) := by
  intro w
  induction w with
  | nil => intro _ _ _ h; exact absurd rfl h
  | cons v w2 ih =>
    intro rest ps os _
    by_cases hw : w2 = []
    · subst hw; simp [tokenLoop]
    · have hpos : 0 < w2.length := List.length_pos.mpr hw
      simp only [List.cons_append, tokenLoop, List.length_cons,
        Bool.false_and, List.append_eq]
      rw [if_neg (by simp : ¬(false = true))]
      rw [if_neg (by omega : ¬(w2.length + 1 ≤ 1))]
      rw [show w2.length + 1 - 1 = w2.length from rfl]
      rw [ih rest ps (osAppend os oname [v]) hw, osAppend_osAppend]
      rfl

/-! Concrete schema states used by individual claims. -/

/-- A parser with one option named with two dashes and x, of the given arity,
    no short name, numeric flag off. -/
def stC1 (A : Nat) : CommandLineParser :=
  (AddOption (mkParser "command" "") "--x" A "" "" false).2

/-- A parser with a leading argument pack (numeric flag off) followed by one
    numeric-only plain argument. -/
def stC2a : CommandLineParser :=
  (AddArgument ((AddArgumentPack (mkParser "command" "") "items" "" false).2) "a" "" true).2

/-- A parser with a leading argument pack followed by a numeric-only plain
    argument and a second plain argument. -/
def stC2b : CommandLineParser :=
  (AddArgument ((AddArgument ((AddArgumentPack (mkParser "command" "") "items" ""
    false).2) "a" "" true).2) "b" "" false).2

/-- A freshly constructed parser with an empty schema. -/
def stC3 : CommandLineParser := mkParser "command" ""

/-- The state stC3 reaches after a successful Parse whose program path is
    the string prog. -/
def stC3p : CommandLineParser := { stC3 with app_path_ := "prog" }

/-- C1: the claim states that re-matching an option overwrites the earlier
    captured values (last occurrence wins).  Counterexample: with one option
    of arity one occurring twice, Parse binds the option to the values of
    both occurrences concatenated, not to the last window alone. -/
theorem C1_counterexample :
    parsedValues (Parse (stC1 1) ["prog", "--x", "a", "--x", "b"]) "--x"
        = some ["a", "b"]
    ∧ (["a", "b"] : List String) ≠ ["b"] := by
  refine ⟨rfl, by decide⟩

/-- One top-level step of the token loop that matches an option of nonzero
    arity equal to the window length and consumes the whole window. -/
lemma tokenLoop_optStep (st : CommandLineParser) (tok oname : String)
    (w rest ps : List String) (os : OptMap)
    (hres : resolveOption st tok = oname) (hone : oname ≠ "")
    (hari : optArity st oname = w.length) (hnum : optOnlyNumber st oname = false)
    (hw : w ≠ []) :
    tokenLoop st (tok :: (w ++ rest)) TMode.top ps os
      = tokenLoop st rest TMode.top ps (osAppend (osEnsure os oname) oname w) := by
  simp only [tokenLoop, hres]
  rw [if_neg hone, hari, hnum]
  rw [if_neg (by simpa [List.length_eq_zero] using hw : ¬(w.length = 0))]
  exact tokenLoop_valueRun st oname w rest ps (osEnsure os oname) hw

/-- The token-loop outcome of the C1 schema on a doubled option occurrence:
    both captured windows end up concatenated in the single map entry. -/
lemma C1_token_lemma (st : CommandLineParser) (w1 w2 : List String)
    (hres : resolveOption st "--x" = "--x")
    (hari : optArity st "--x" = w1.length)
    (hari2 : optArity st "--x" = w2.length)
    (hnum : optOnlyNumber st "--x" = false)
    (hw1 : w1 ≠ []) (hw2 : w2 ≠ []) :
    tokenLoop st ("--x" :: (w1 ++ "--x" :: w2)) TMode.top [] []
      = some ([], [("--x", w1 ++ w2)]) := by
  rw [tokenLoop_optStep st "--x" "--x" w1 ("--x" :: w2) [] [] hres (by decide) hari hnum hw1]
  rw [show osAppend (osEnsure [] "--x") "--x" w1 = [("--x", w1)] by
    simp [osEnsure, osAppend, osAppendEntry]]
  rw [show ("--x" :: w2 : List String) = "--x" :: (w2 ++ []) by simp]
  rw [tokenLoop_optStep st "--x" "--x" w2 [] [] [("--x", w1)] hres (by decide) hari2 hnum hw2]
  rw [show osAppend (osEnsure [("--x", w1)] "--x") "--x" w2 = [("--x", w1 ++ w2)] by
    simp [osEnsure, osAppend, osAppendEntry]]
  rfl

/-- C1 (amended): re-matching the same option does not overwrite; the values
    captured at a later occurrence are appended after the values captured
    earlier, so the bound value list is the concatenation of all captured
    windows in occurrence order.  Stated for an option of arbitrary arity A
    occurring twice with arbitrary value windows. -/
theorem C1_amended_append (A : Nat) (w1 w2 : List String)
    (h1 : w1.length = A) (h2 : w2.length = A) :
    parsedValues (Parse (stC1 A) ("prog" :: "--x" :: (w1 ++ "--x" :: w2))) "--x"
      = some (w1 ++ w2) := by
  cases A with
  | zero =>
    have e1 : w1 = [] := List.length_eq_zero.mp h1
    have e2 : w2 = [] := List.length_eq_zero.mp h2
    subst e1; subst e2
    rfl
  | succ n =>
    have hw1 : w1 ≠ [] := by intro hcon; rw [hcon] at h1; exact absurd h1 (by simp)
    have hw2 : w2 ≠ [] := by intro hcon; rw [hcon] at h2; exact absurd h2 (by simp)
    have hne : ("--x" :: (w1 ++ "--x" :: w2)) ≠ ["--help"] := by
      intro hcon; injection hcon with hA hB; exact absurd hA (by decide)
    have hne2 : ("--x" :: (w1 ++ "--x" :: w2)) ≠ ["--usage"] := by
      intro hcon; injection hcon with hA hB; exact absurd hA (by decide)
    have htok := C1_token_lemma
      { stC1 (n + 1) with app_path_ := "prog", cur_values_ := [] } w1 w2
      rfl (by rw [h1]; rfl) (by rw [h2]; rfl) rfl hw1 hw2
    simp only [Parse]
    rw [if_neg (fun hcon => hne hcon.1), if_neg (fun hcon => hne2 hcon.1)]
    rw [htok]
    rfl

/-- The single string bound to a name, when Parse returned true. -/
def parsedString (o : ParseOutcome) (name : String) : Option String :=
  match o with
  | ParseOutcome.ok st => some (lookupValue st name).value_
  | _ => none

/-- C2: the claim states that the numeric-only check of each non-pack
    Argument is applied to exactly the token bound to it, also when the pack
    is declared first.  The code is wrong: the validation loop increments its
    token index once per argument in the for header and again once per
    consumed pack token, so after a pack the checks are shifted one token to
    the right.  With schema (pack items, numeric argument a) and tokens
    1 2, the check for a reads one past the end of the positional vector
    (undefined behaviour); with schema (pack items, numeric a, plain b) and
    tokens 1 n 3, the check for a inspects the token 3 bound to b, so Parse
    accepts and binds a to the non-numeric token n. -/
theorem C2_code_bug :
    Parse stC2a ["prog", "1", "2"] = ParseOutcome.ubRead
    ∧ parsedString (Parse stC2b ["prog", "1", "n", "3"]) "a" = some "n"
    ∧ stoiOk "n" = false := by
  refine ⟨rfl, rfl, rfl⟩

/-- C3: the claim states that UsageInfo is independent of any prior Parse.
    Counterexample: Parse stores the program path from the first raw token,
    and UsageInfo prints that stored path in place of the word command, so
    the same schema renders different usage lines before and after Parse. -/
theorem C3_counterexample :
    Parse stC3 ["prog"] = ParseOutcome.ok stC3p
    ∧ UsageInfo stC3 = "Usage: command"
    ∧ UsageInfo stC3p = "Usage: prog"
    ∧ UsageInfo stC3p ≠ UsageInfo stC3 := by
  refine ⟨rfl, rfl, rfl, by decide⟩

/-- C3 (amended): UsageInfo is deterministic and reads only the registered
    arguments, the registered options and the stored program path (which the
    most recent Parse call overwrites with its first raw token); it is
    independent of every other part of the parser state, in particular of
    the bound values of a prior Parse result. -/
theorem C3_amended_usage_pure (st1 st2 : CommandLineParser)
    (h1 : st1.all_arguments_ = st2.all_arguments_)
    (h2 : st1.all_options_ = st2.all_options_)
    (h3 : st1.app_path_ = st2.app_path_) :
    UsageInfo st1 = UsageInfo st2 := by
  simp only [UsageInfo, h1, h2, h3]

/-- Two states agreeing on schema and stored path but differing in command
    name, note and bound values. -/
def stC3w1 : CommandLineParser :=
  { (mkParser "alpha" "some note") with
    app_path_ := "p",
    cur_values_ := [("k", Value.ofString "v")] }

/-- The second state for the C3 amended witness. -/
def stC3w2 : CommandLineParser := { (mkParser "beta" "") with app_path_ := "p" }

/-- C3 amended witness at concrete states. -/
theorem C3_amended_usage_pure_witness : UsageInfo stC3w1 = UsageInfo stC3w2 :=
  C3_amended_usage_pure stC3w1 stC3w2 rfl rfl rfl

/-- A parser with a zero-arity option and no short name. -/
def stBack : CommandLineParser :=
  (AddOption (mkParser "command" "") "--back" 0 "" "" false).2

/-- C6: a lookup for a name with no bound entry yields the invalid Value
    (boolean false), never an error; after a successful Parse in which the
    zero-arity option matched, its lookup is boolean true with an empty
    multiple value, and without the option it is boolean false. -/
theorem C6_lookup_unbound_and_zero_arity (st : CommandLineParser) (n : String)
    (h : mapFind? st.cur_values_ n = none) :
    (lookupValue st n = Value.invalidValue ∧ Value.toBool (lookupValue st n) = false)
    ∧ (∃ st1, Parse stBack ["prog", "--back"] = ParseOutcome.ok st1
        ∧ Value.toBool (lookupValue st1 "--back") = true
        ∧ Value.size (lookupValue st1 "--back") = 0)
    ∧ (∃ st2, Parse stBack ["prog"] = ParseOutcome.ok st2
        ∧ Value.toBool (lookupValue st2 "--back") = false) := by
  refine ⟨⟨?_, ?_⟩, ⟨_, rfl, rfl, rfl⟩, ⟨_, rfl, rfl⟩⟩
  · simp [lookupValue, h]
  · simp [lookupValue, h, Value.toBool, Value.invalidValue]

/-- C6 witness: the general unbound-lookup part applied to a fresh parser
    and an arbitrary name. -/
theorem C6_lookup_unbound_and_zero_arity_witness :
    (lookupValue (mkParser "command" "") "missing" = Value.invalidValue
      ∧ Value.toBool (lookupValue (mkParser "command" "") "missing") = false)
    ∧ (∃ st1, Parse stBack ["prog", "--back"] = ParseOutcome.ok st1
        ∧ Value.toBool (lookupValue st1 "--back") = true
        ∧ Value.size (lookupValue st1 "--back") = 0)
    ∧ (∃ st2, Parse stBack ["prog"] = ParseOutcome.ok st2
        ∧ Value.toBool (lookupValue st2 "--back") = false) :=
  C6_lookup_unbound_and_zero_arity (mkParser "command" "") "missing" rfl

/-- A parser with one option of arity two and a short alias. -/
def stX : CommandLineParser :=
  (AddOption (mkParser "command" "") "--x" 2 "-x" "" false).2

/-- C7: after Parse matches an option through its short alias, the long name
    and the short name are bound to the same multiple Value: same validity,
    same size, identical elements in the same order.  Stated for arbitrary
    captured value tokens. -/
theorem C7_short_alias_same_value (v1 v2 : String) :
    ∃ st2, Parse stX ["prog", "-x", v1, v2] = ParseOutcome.ok st2
      ∧ lookupValue st2 "--x" = Value.ofList [v1, v2]
      ∧ lookupValue st2 "-x" = Value.ofList [v1, v2]
      ∧ lookupValue st2 "-x" = lookupValue st2 "--x" := by
  refine ⟨_, rfl, rfl, rfl, rfl⟩

/-- A parser with a single plain argument named a. -/
def stC9 : CommandLineParser :=
  (AddArgument (mkParser "command" "") "a" "" false).2

/-- C9: when the positional token bound to a plain argument is the empty
    string, Parse succeeds and the binding is present, yet the looked-up
    Value converts to boolean false, so the idiomatic presence check reports
    the argument as absent although it was supplied. -/
theorem C9_empty_positional_reads_absent :
    ∃ st2, Parse stC9 ["prog", ""] = ParseOutcome.ok st2
      ∧ mapFind? st2.cur_values_ "a" = some (Value.ofString "")
      ∧ Value.toBool (lookupValue st2 "a") = false := by
  refine ⟨_, rfl, rfl, rfl⟩

/-- A parser with one numeric-only option of arity one. -/
def stLines : CommandLineParser :=
  (AddOption (mkParser "command" "") "--lines" 1 "" "" true).2

/-- A parser with one numeric-only plain argument. -/
def stNum : CommandLineParser :=
  (AddArgument (mkParser "command" "") "num" "" true).2

/-- C10: the numeric-only gate, for option values and positional argument
    values alike, succeeds exactly when std::stoi on the token does not
    throw; in particular a token with a parseable leading integer portion
    passes even with trailing garbage or leading whitespace, and a token
    with no such portion is fatal. -/
theorem C10_numeric_gate_is_stoi (v : String) :
    isOk (Parse stLines ["prog", "--lines", v]) = stoiOk v
    ∧ isOk (Parse stNum ["prog", v]) = stoiOk v
    ∧ stoiOk "3abc" = true ∧ stoiOk " 42" = true
    ∧ stoiOk "abc" = false ∧ stoiOk "" = false := by
  refine ⟨?_, ?_, rfl, rfl, rfl, rfl⟩
  · have hne : (["--lines", v] : List String) ≠ ["--help"] := by
      intro hcon; injection hcon with hA hB; exact absurd hA (by decide)
    have hne2 : (["--lines", v] : List String) ≠ ["--usage"] := by
      intro hcon; injection hcon with hA hB; exact absurd hA (by decide)
    simp only [Parse]
    rw [if_neg (fun hcon => hne hcon.1), if_neg (fun hcon => hne2 hcon.1)]
    have hres : resolveOption { stLines with app_path_ := "prog", cur_values_ := [] }
        "--lines" = "--lines" := rfl
    simp only [tokenLoop, hres]
    rw [if_neg (by decide : ¬(("--lines" : String) = ""))]
    rw [show optArity { stLines with app_path_ := "prog", cur_values_ := [] }
      "--lines" = 1 from rfl]
    rw [if_neg (by decide : ¬((1 : Nat) = 0))]
    rw [show optOnlyNumber { stLines with app_path_ := "prog", cur_values_ := [] }
      "--lines" = true from rfl]
    cases hv : stoiOk v with
    | false => rfl
    | true => rfl
  · by_cases hv1 : v = "--help"
    · subst hv1; rfl
    · by_cases hv2 : v = "--usage"
      · subst hv2; rfl
      · have hcond1 : ¬((([v] : List String) = ["--help"]) ∧
            findOption { stNum with app_path_ := "prog", cur_values_ := [] }
              "--help" = none) := by
          intro hcon
          injection hcon.1 with hH hT
          exact hv1 hH
        have hcond2 : ¬((([v] : List String) = ["--usage"]) ∧
            findOption { stNum with app_path_ := "prog", cur_values_ := [] }
              "--usage" = none) := by
          intro hcon
          injection hcon.1 with hH hT
          exact hv2 hH
        simp only [Parse]
        rw [if_neg hcond1, if_neg hcond2]
        rw [tokenLoop_allPositional { stNum with app_path_ := "prog", cur_values_ := [] }
          [v] [] [] (fun t ht => rfl)]
        simp only [parseAfterTokenize, validateArgsNoPack, checkTok, List.nil_append,
          List.get?_cons_zero]
        cases hv : stoiOk v with
        | false => rfl
        | true => rfl

/-- C8: a failed registration call leaves the whole parser state unchanged:
    no argument appended, no option or alias stored, the pack flag intact. -/
theorem C8_failed_registration_is_noop (st : CommandLineParser)
    (name note short_name : String) (value_count : Nat) (only_number : Bool) :
    ((AddArgument st name note only_number).1 = false →
      (AddArgument st name note only_number).2 = st)
    ∧ ((AddArgumentPack st name note only_number).1 = false →
      (AddArgumentPack st name note only_number).2 = st)
    ∧ ((AddOption st name value_count short_name note only_number).1 = false →
      (AddOption st name value_count short_name note only_number).2 = st) := by
  refine ⟨?_, ?_, ?_⟩
  · intro h
    unfold AddArgument at h ⊢
    split_ifs at h ⊢ <;> simp_all
  · intro h
    unfold AddArgumentPack at h ⊢
    split_ifs at h ⊢ <;> simp_all
  · intro h
    unfold AddOption at h ⊢
    split_ifs at h ⊢ <;> simp_all

/-- C8 witness: concrete failing registrations (an invalid argument name, a
    second pack, a duplicate option name) leave a concrete state unchanged. -/
theorem C8_failed_registration_is_noop_witness :
    ((AddArgument stC9 "a" "n" true).1 = false
      ∧ (AddArgument stC9 "a" "n" true).2 = stC9)
    ∧ ((AddArgumentPack stC2a "more" "" false).1 = false
      ∧ (AddArgumentPack stC2a "more" "" false).2 = stC2a)
    ∧ ((AddOption stX "--x" 1 "" "" false).1 = false
      ∧ (AddOption stX "--x" 1 "" "" false).2 = stX) :=
  ⟨⟨rfl, (C8_failed_registration_is_noop stC9 "a" "n" "" 0 true).1 rfl⟩,
   ⟨rfl, (C8_failed_registration_is_noop stC2a "more" "" "" 0 false).2.1 rfl⟩,
   ⟨rfl, (C8_failed_registration_is_noop stX "--x" "" "" 1 false).2.2 rfl⟩⟩

/-- Lookup of an option in an explicitly given parser record reads only the
    all_options_ field. -/
lemma findOption_mk (a b c : String) (fl : Bool) (args : List Argument)
    (opts : List COption) (sm : List (String × String)) (cv : List (String × Value))
    (n : String) :
    findOption
      { app_name_ := a, app_path_ := b, app_note_ := c, have_argument_pack_ := fl,
        all_arguments_ := args, all_options_ := opts,
        short_name_to_name_of_option_ := sm, cur_values_ := cv } n
      = opts.find? (fun q => q.name == n) := rfl

/-- C5: when the raw token list after the program path is exactly the single
    token for help and no user option of that name exists, Parse prints the
    full help text and terminates with status zero; likewise for usage with
    the usage text; when an option of that exact name is registered, the
    shortcut does not fire and the token is matched as that user option (for
    a zero-arity registration on an otherwise empty schema, Parse returns
    true with the option bound present). -/
theorem C5_help_usage_shortcut
    (st1 st2 : CommandLineParser) (o : COption) (path : String)
    (h1 : findOption st1 "--help" = none)
    (h2 : findOption st1 "--usage" = none)
    (h3 : findOption st2 "--help" = some o)
    (h4 : o.value_count = 0) (h5 : o.short_name = "")
    (h6 : st2.all_arguments_ = []) (h7 : st2.have_argument_pack_ = false) :
    Parse st1 [path, "--help"]
      = ParseOutcome.showHelp (HelpInfo { st1 with app_path_ := path, cur_values_ := [] })
    ∧ Parse st1 [path, "--usage"]
      = ParseOutcome.showUsage (UsageInfo { st1 with app_path_ := path, cur_values_ := [] })
    ∧ Parse st2 [path, "--help"]
      = ParseOutcome.ok { st2 with
          app_path_ := path,
          cur_values_ := [("--help", Value.ofList [])] } := by
  refine ⟨?_, ?_, ?_⟩
  · simp only [Parse]
    rw [if_pos ⟨trivial, by simpa using h1⟩]
  · simp only [Parse]
    rw [if_neg (show ¬((["--usage"] : List String) = ["--help"]
        ∧ findOption { st1 with app_path_ := path, cur_values_ := [] } "--help" = none) from
      fun hcon => by injection hcon.1 with hH hT; exact absurd hH (by decide))]
    rw [if_pos ⟨trivial, by simpa using h2⟩]
  · simp only [Parse, findOption_reset, h3]
    rw [if_neg (show ¬(True ∧ (some o = none)) from fun hcon => Option.noConfusion hcon.2)]
    rw [if_neg (show ¬((["--help"] : List String) = ["--usage"]
        ∧ findOption st2 "--usage" = none) from
      fun hcon => by injection hcon.1 with hH hT; exact absurd hH (by decide))]
    have hres2 : resolveOption st2 "--help" = "--help" := by
      simp [resolveOption, h3]
    have hari2 : optArity st2 "--help" = 0 := by
      simp [optArity, h3, h4]
    simp only [tokenLoop, resolveOption_reset, optArity_reset, optOnlyNumber_reset,
      hres2, hari2]
    rw [if_neg (show ¬(("--help" : String) = "") by decide), if_pos trivial]
    simp only [parseAfterTokenize, have_argument_pack_reset, all_arguments_reset, h7, h6]
    simp only [List.length_nil, validateArgsNoPack]
    have h3f : st2.all_options_.find? (fun q => q.name == "--help") = some o := h3
    simp [bindArgsNoPack, bindOptions, mapInsert, osEnsure, findOption_mk, h3f, h5]

/-! Lemmas for the pack-case validation loop. -/

/-- A pack run with the numeric flag off checks nothing. -/
lemma checkPackRun_nonum (cur : List String) :
    ∀ (k j : Nat), checkPackRun false cur j k = ValOutcome.okV := by
  intro k
  induction k with
  | zero => intro j; rfl
  | succ n ih => intro j; exact ih (j + 1)

/-- When no argument carries the numeric flag and the pack size is nonzero,
    the pack-case validation loop succeeds. -/
lemma validateArgsPack_ok (cur : List String) (pvc : Nat) (hpvc : ¬(pvc = 0)) :
    ∀ (args : List Argument) (j : Nat), (∀ a ∈ args, a.only_number = false) →
      validateArgsPack cur pvc args j = ValOutcome.okV := by
  intro args
  induction args with
  | nil => intro j _; rfl
  | cons a rest ih =>
    intro j hnum
    have ha : a.only_number = false := hnum a (by simp)
    by_cases hp : a.is_package = true
    · simp only [validateArgsPack, if_pos hp, if_neg hpvc, ha, checkPackRun_nonum]
      exact ih (j + pvc + 1) (fun x hx => hnum x (by simp [hx]))
    · simp only [validateArgsPack, if_neg hp, ha]
      exact ih (j + 1) (fun x hx => hnum x (by simp [hx]))

/-- When the computed pack size is zero, the validation loop reaches the pack
    and fails fatally; the checks before the pack stay in range so no
    out-of-range read can preempt the fatal report. -/
lemma validateArgsPack_fatal_pvc0 (cur : List String) (pk : Argument)
    (post : List Argument) (hpk : pk.is_package = true) :
    ∀ (pre : List Argument) (j : Nat), (∀ a ∈ pre, a.is_package = false) →
      j + pre.length ≤ cur.length →
      validateArgsPack cur 0 (pre ++ pk :: post) j = ValOutcome.fatalV := by
  intro pre
  induction pre with
  | nil =>
    intro j _ _
    simp only [List.nil_append, validateArgsPack, hpk]
    rfl
  | cons a pre2 ih =>
    intro j hpre hrange
    have ha : a.is_package = false := hpre a (by simp)
    have hj : j < cur.length := by
      simp only [List.length_cons] at hrange
      omega
    have hrange2 : (j + 1) + pre2.length ≤ cur.length := by
      simp only [List.length_cons] at hrange
      omega
    have hrec := ih (j + 1) (fun x hx => hpre x (by simp [hx])) hrange2
    simp only [List.cons_append, validateArgsPack,
      if_neg (show ¬(a.is_package = true) by rw [ha]; exact Bool.false_ne_true)]
    cases honum : a.only_number with
    | false =>
      exact hrec
    | true =>
      obtain ⟨t, ht⟩ : ∃ t, cur.get? j = some t :=
        ⟨cur.get ⟨j, hj⟩, List.get?_eq_get hj⟩
      simp only [checkTok, honum, ht, if_pos rfl]
      cases hst : stoiOk t with
      | true => exact hrec
      | false => rfl

/-! Lemmas for the binding loop of the pack case. -/

/-- The list of bindings the pack-case binding loop produces, in loop order. -/
def bindList (cur : List String) (pvc : Nat) : List Argument → Nat → List (String × Value)
  | [], _ => []
  | a :: rest, j =>
    if a.is_package then
      (a.name, Value.ofList ((cur.drop j).take pvc)) :: bindList cur pvc rest (j + pvc)
    else
      (a.name, Value.ofString (cur.getD j "")) :: bindList cur pvc rest (j + 1)

/-- Inserting a fresh key appends the entry. -/
lemma mapInsert_fresh {α : Type} (m : List (String × α)) (k : String) (v : α)
    (h : ∀ p ∈ m, p.1 ≠ k) : mapInsert m k v = m ++ [(k, v)] := by
  unfold mapInsert
  rw [if_neg]
  intro hcon
  obtain ⟨p, hpmem, hpk⟩ := List.any_eq_true.mp hcon
  exact h p hpmem (by simpa using hpk)

/-- Lookup skips an entry with a different key. -/
lemma mapFind?_cons_ne {α : Type} (p : String × α) (m : List (String × α))
    (k : String) (h : p.1 ≠ k) : mapFind? (p :: m) k = mapFind? m k := by
  unfold mapFind?
  rw [List.find?_cons_of_neg]
  simpa using h

/-- Lookup finds a leading entry with the matching key. -/
lemma mapFind?_cons_self {α : Type} (k : String) (v : α) (m : List (String × α)) :
    mapFind? ((k, v) :: m) k = some v := by
  unfold mapFind?
  rw [List.find?_cons_of_pos] <;> simp

/-- Lookup in an append when the key is found on the left. -/
lemma mapFind?_append_left {α : Type} (m1 m2 : List (String × α)) (k : String)
    (v : α) (h : mapFind? m1 k = some v) : mapFind? (m1 ++ m2) k = some v := by
  unfold mapFind? at h ⊢
  rw [List.find?_append]
  cases hf : m1.find? (fun p => p.1 == k) with
  | none => rw [hf] at h; simp at h
  | some q => rw [hf] at h; simpa using h

/-- Lookup in an append when the key is absent on the left. -/
lemma mapFind?_append_right {α : Type} (m1 m2 : List (String × α)) (k : String)
    (h : mapFind? m1 k = none) : mapFind? (m1 ++ m2) k = mapFind? m2 k := by
  unfold mapFind? at h ⊢
  rw [List.find?_append]
  cases hf : m1.find? (fun p => p.1 == k) with
  | none => rfl
  | some q => rw [hf] at h; simp at h

/-- The binding loop equals the accumulator followed by the binding list,
    for pairwise fresh argument names. -/
lemma bindArgsPack_eq_append (cur : List String) (pvc : Nat) :
    ∀ (args : List Argument) (j : Nat) (m : List (String × Value)),
      ((args.map Argument.name).Nodup) →
      (∀ p ∈ m, ∀ a ∈ args, p.1 ≠ a.name) →
      bindArgsPack cur pvc args j m = m ++ bindList cur pvc args j := by
  intro args
  induction args with
  | nil => intro j m _ _; simp [bindArgsPack, bindList]
  | cons a rest ih =>
    intro j m hnodup hfresh
    have hfa : ∀ p ∈ m, p.1 ≠ a.name := fun p hp => hfresh p hp a (by simp)
    have hnods : a.name ∉ rest.map Argument.name ∧ (rest.map Argument.name).Nodup := by
      have := hnodup
      simp only [List.map_cons, List.nodup_cons] at this
      exact this
    have hfresh2 : ∀ v : Value, ∀ p ∈ m ++ [(a.name, v)], ∀ b ∈ rest, p.1 ≠ b.name := by
      intro v p hpmem b hbmem
      rcases List.mem_append.mp hpmem with hm | hx
      · exact hfresh p hm b (by simp [hbmem])
      · have hpa : p.1 = a.name := by
          simp only [List.mem_singleton] at hx
          rw [hx]
        rw [hpa]
        intro hcon
        exact hnods.1 (hcon ▸ List.mem_map_of_mem Argument.name hbmem)
    by_cases hp : a.is_package = true
    · simp only [bindArgsPack, if_pos hp,
        mapInsert_fresh m a.name (Value.ofList ((cur.drop j).take pvc)) hfa]
      rw [ih (j + pvc) _ hnods.2 (hfresh2 _)]
      simp [bindList, if_pos hp]
    · simp only [bindArgsPack, if_neg hp,
        mapInsert_fresh m a.name (Value.ofString (cur.getD j "")) hfa]
      rw [ih (j + 1) _ hnods.2 (hfresh2 _)]
      simp [bindList, if_neg hp]

/-- Lookup misses the binding list of arguments with other names. -/
lemma bindList_find?_notMem (cur : List String) (pvc : Nat) :
    ∀ (args : List Argument) (j : Nat) (k : String), (∀ a ∈ args, a.name ≠ k) →
      mapFind? (bindList cur pvc args j) k = none := by
  intro args
  induction args with
  | nil => intro j k _; rfl
  | cons a rest ih =>
    intro j k h
    have ha : a.name ≠ k := h a (by simp)
    by_cases hp : a.is_package = true
    · simp only [bindList, if_pos hp]
      rw [mapFind?_cons_ne _ _ _ ha]
      exact ih (j + pvc) k (fun x hx => h x (by simp [hx]))
    · simp only [bindList, if_neg hp]
      rw [mapFind?_cons_ne _ _ _ ha]
      exact ih (j + 1) k (fun x hx => h x (by simp [hx]))

/-- Lookup of the i-th name in the binding list of a run of non-pack
    arguments yields the token at offset i. -/
lemma bindList_find?_nonpack (cur : List String) (pvc : Nat) :
    ∀ (pre : List Argument) (j i : Nat) (hi : i < pre.length),
      (∀ a ∈ pre, a.is_package = false) → (pre.map Argument.name).Nodup →
      mapFind? (bindList cur pvc pre j) ((pre.get ⟨i, hi⟩).name)
        = some (Value.ofString (cur.getD (j + i) "")) := by
  intro pre
  induction pre with
  | nil => intro j i hi _ _; exact absurd hi (by simp)
  | cons a rest ih =>
    intro j i hi hnp hnodup
    have ha : a.is_package = false := hnp a (by simp)
    have hnods : a.name ∉ rest.map Argument.name ∧ (rest.map Argument.name).Nodup := by
      have := hnodup
      simp only [List.map_cons, List.nodup_cons] at this
      exact this
    simp only [bindList,
      if_neg (show ¬(a.is_package = true) by rw [ha]; exact Bool.false_ne_true)]
    cases i with
    | zero =>
      rw [show ((a :: rest).get ⟨0, hi⟩) = a from rfl]
      rw [mapFind?_cons_self]
      rw [show j + 0 = j from rfl]
    | succ i2 =>
      have hi2 : i2 < rest.length := by simpa using hi
      rw [show ((a :: rest).get ⟨i2 + 1, hi⟩) = rest.get ⟨i2, hi2⟩ from rfl]
      have hneq : a.name ≠ (rest.get ⟨i2, hi2⟩).name := by
        intro hcon
        exact hnods.1 (hcon ▸ List.mem_map_of_mem Argument.name (rest.get_mem i2 hi2))
      rw [mapFind?_cons_ne _ _ _ hneq]
      rw [ih (j + 1) i2 hi2 (fun x hx => hnp x (by simp [hx])) hnods.2]
      rw [show j + 1 + i2 = j + (i2 + 1) by omega]

/-- The binding list of an appended argument list splits, when the prefix
    holds no pack. -/
lemma bindList_append_nonpack (cur : List String) (pvc : Nat) :
    ∀ (pre ys : List Argument) (j : Nat), (∀ a ∈ pre, a.is_package = false) →
      bindList cur pvc (pre ++ ys) j
        = bindList cur pvc pre j ++ bindList cur pvc ys (j + pre.length) := by
  intro pre
  induction pre with
  | nil => intro ys j _; simp [bindList]
  | cons a rest ih =>
    intro ys j hnp
    have ha : a.is_package = false := hnp a (by simp)
    simp only [List.cons_append, bindList, List.append_eq,
      if_neg (show ¬(a.is_package = true) by rw [ha]; exact Bool.false_ne_true)]
    rw [ih ys (j + 1) (fun x hx => hnp x (by simp [hx]))]
    rw [show j + 1 + rest.length = j + (a :: rest).length by simp; omega]

/-- C4: for a schema with exactly one pack among its D declared arguments
    and a token list of P positional tokens (no token matches an option, and
    the run is not a lone built-in help or usage token), Parse fails fatally
    whenever P is at most D - 1 (at P = D - 1 the pack would receive zero
    values, itself fatal); and whenever P is at least D (with no numeric
    flags in play), Parse succeeds, each non-pack argument is bound to one
    positional token in declared relative order, and the pack is bound to
    the P - (D - 1) consecutive tokens at its declared position, in order. -/
theorem C4_pack_count_and_binding
    (st : CommandLineParser) (pre post : List Argument) (pk : Argument)
    (path : String) (rest : List String)
    (hargs : st.all_arguments_ = pre ++ pk :: post)
    (hpk : pk.is_package = true)
    (hpre : ∀ a ∈ pre, a.is_package = false)
    (hpost : ∀ a ∈ post, a.is_package = false)
    (hflag : st.have_argument_pack_ = true)
    (hnodup : ((pre ++ pk :: post).map Argument.name).Nodup)
    (hfree : ∀ t ∈ rest, resolveOption st t = "")
    (hh : rest ≠ ["--help"]) (hu : rest ≠ ["--usage"]) :
    (rest.length ≤ pre.length + post.length →
      Parse st (path :: rest) = ParseOutcome.fatalErr)
    ∧ (pre.length + 1 + post.length ≤ rest.length →
      (∀ a ∈ pre ++ pk :: post, a.only_number = false) →
      ∃ st2, Parse st (path :: rest) = ParseOutcome.ok st2
        ∧ (∀ i, ∀ hi : i < pre.length,
            mapFind? st2.cur_values_ ((pre.get ⟨i, hi⟩).name)
              = some (Value.ofString (rest.getD i "")))
        ∧ mapFind? st2.cur_values_ pk.name
            = some (Value.ofList ((rest.drop pre.length).take
                (rest.length + 1 - (pre.length + 1 + post.length))))
        ∧ (∀ i, ∀ hi : i < post.length,
            mapFind? st2.cur_values_ ((post.get ⟨i, hi⟩).name)
              = some (Value.ofString (rest.getD
                  (pre.length + (rest.length + 1 - (pre.length + 1 + post.length)) + i)
                  "")))) := by
  have hmain : Parse st (path :: rest)
      = parseAfterTokenize { st with app_path_ := path, cur_values_ := [] } rest [] := by
    simp only [Parse]
    rw [if_neg (fun hcon => hh hcon.1), if_neg (fun hcon => hu hcon.1)]
    rw [tokenLoop_allPositional { st with app_path_ := path, cur_values_ := [] } rest [] []
      (fun t ht => by rw [resolveOption_reset]; exact hfree t ht)]
    rfl
  have hlen : (pre ++ pk :: post).length = pre.length + 1 + post.length := by
    simp only [List.length_append, List.length_cons]
    omega
  have hmapsplit : (pre ++ pk :: post).map Argument.name
      = pre.map Argument.name ++ pk.name :: post.map Argument.name := by simp
  have hnodup2 := hnodup
  rw [hmapsplit] at hnodup2
  obtain ⟨hnodupPre, hnodupRest, hdisj⟩ := List.nodup_append.mp hnodup2
  obtain ⟨hpknotin, hnodupPost⟩ := List.nodup_cons.mp hnodupRest
  constructor
  · intro hP
    rw [hmain]
    simp only [parseAfterTokenize, all_arguments_reset, have_argument_pack_reset,
      hargs, hflag, hlen]
    rw [if_pos trivial]
    by_cases hPlt : rest.length + 1 < pre.length + 1 + post.length
    · rw [if_pos (Or.inr hPlt)]
    · rw [if_neg (by omega :
        ¬(pre.length + 1 + post.length = 0 ∨ rest.length + 1 < pre.length + 1 + post.length))]
      rw [show rest.length + 1 - (pre.length + 1 + post.length) = 0 by omega]
      rw [validateArgsPack_fatal_pvc0 rest pk post hpk pre 0 hpre (by omega)]
  · intro hP hnum
    rw [hmain]
    simp only [parseAfterTokenize, all_arguments_reset, have_argument_pack_reset,
      hargs, hflag, hlen]
    rw [if_pos trivial]
    rw [if_neg (by omega :
      ¬(pre.length + 1 + post.length = 0 ∨ rest.length + 1 < pre.length + 1 + post.length))]
    have hpvcne : ¬(rest.length + 1 - (pre.length + 1 + post.length) = 0) := by omega
    rw [validateArgsPack_ok rest _ hpvcne (pre ++ pk :: post) 0 hnum]
    rw [bindArgsPack_eq_append rest _ (pre ++ pk :: post) 0 [] hnodup
      (fun p hp => absurd hp (List.not_mem_nil p))]
    rw [List.nil_append]
    have hsplit : bindList rest (rest.length + 1 - (pre.length + 1 + post.length))
        (pre ++ pk :: post) 0
        = bindList rest (rest.length + 1 - (pre.length + 1 + post.length)) pre 0
          ++ bindList rest (rest.length + 1 - (pre.length + 1 + post.length))
              (pk :: post) pre.length := by
      rw [bindList_append_nonpack rest _ pre (pk :: post) 0 hpre, Nat.zero_add]
    refine ⟨_, rfl, ?_, ?_, ?_⟩
    · intro i hi
      show mapFind? (bindOptions { st with app_path_ := path, cur_values_ := [] } []
          (bindList rest (rest.length + 1 - (pre.length + 1 + post.length))
            (pre ++ pk :: post) 0)) ((pre.get ⟨i, hi⟩).name)
        = some (Value.ofString (rest.getD i ""))
      rw [show bindOptions { st with app_path_ := path, cur_values_ := [] } []
          (bindList rest (rest.length + 1 - (pre.length + 1 + post.length))
            (pre ++ pk :: post) 0)
          = bindList rest (rest.length + 1 - (pre.length + 1 + post.length))
              (pre ++ pk :: post) 0 from rfl]
      rw [hsplit]
      have hfound := bindList_find?_nonpack rest
        (rest.length + 1 - (pre.length + 1 + post.length)) pre 0 i hi hpre hnodupPre
      rw [Nat.zero_add] at hfound
      exact mapFind?_append_left _ _ _ _ hfound
    · show mapFind? (bindOptions { st with app_path_ := path, cur_values_ := [] } []
          (bindList rest (rest.length + 1 - (pre.length + 1 + post.length))
            (pre ++ pk :: post) 0)) pk.name
        = some (Value.ofList ((rest.drop pre.length).take
            (rest.length + 1 - (pre.length + 1 + post.length))))
      rw [show bindOptions { st with app_path_ := path, cur_values_ := [] } []
          (bindList rest (rest.length + 1 - (pre.length + 1 + post.length))
            (pre ++ pk :: post) 0)
          = bindList rest (rest.length + 1 - (pre.length + 1 + post.length))
              (pre ++ pk :: post) 0 from rfl]
      rw [hsplit]
      have hnotpre : ∀ a ∈ pre, a.name ≠ pk.name := by
        intro a ha hcon
        exact hdisj (List.mem_map_of_mem Argument.name ha)
          (by rw [hcon]; exact List.mem_cons_self pk.name (post.map Argument.name))
      rw [mapFind?_append_right _ _ _
        (bindList_find?_notMem rest _ pre 0 pk.name hnotpre)]
      simp only [bindList, if_pos hpk]
      exact mapFind?_cons_self _ _ _
    · intro i hi
      show mapFind? (bindOptions { st with app_path_ := path, cur_values_ := [] } []
          (bindList rest (rest.length + 1 - (pre.length + 1 + post.length))
            (pre ++ pk :: post) 0)) ((post.get ⟨i, hi⟩).name)
        = some (Value.ofString (rest.getD
            (pre.length + (rest.length + 1 - (pre.length + 1 + post.length)) + i) ""))
      rw [show bindOptions { st with app_path_ := path, cur_values_ := [] } []
          (bindList rest (rest.length + 1 - (pre.length + 1 + post.length))
            (pre ++ pk :: post) 0)
          = bindList rest (rest.length + 1 - (pre.length + 1 + post.length))
              (pre ++ pk :: post) 0 from rfl]
      rw [hsplit]
      have hkeymem : (post.get ⟨i, hi⟩).name ∈ post.map Argument.name :=
        List.mem_map_of_mem Argument.name (post.get_mem i hi)
      have hnotpre : ∀ a ∈ pre, a.name ≠ (post.get ⟨i, hi⟩).name := by
        intro a ha hcon
        exact hdisj (List.mem_map_of_mem Argument.name ha)
          (by rw [hcon]; exact List.mem_cons_of_mem pk.name hkeymem)
      rw [mapFind?_append_right _ _ _
        (bindList_find?_notMem rest _ pre 0 ((post.get ⟨i, hi⟩).name) hnotpre)]
      simp only [bindList, if_pos hpk]
      have hpkne : pk.name ≠ (post.get ⟨i, hi⟩).name :=
        fun hcon => hpknotin (by rw [hcon]; exact hkeymem)
      rw [mapFind?_cons_ne _ _ _ hpkne]
      exact bindList_find?_nonpack rest _ post
        (pre.length + (rest.length + 1 - (pre.length + 1 + post.length))) i hi
        hpost hnodupPost

/-- C1 amended witness: arity two, two occurrences, concrete windows. -/
theorem C1_amended_append_witness :
    parsedValues (Parse (stC1 2) ("prog" :: "--x" :: (["a", "b"] ++ "--x" :: ["c", "d"])))
        "--x" = some (["a", "b"] ++ ["c", "d"]) :=
  C1_amended_append 2 ["a", "b"] ["c", "d"] rfl rfl

/-- The single plain argument of the C4 witness schema. -/
def argA : Argument :=
  { name := "a", note := "", only_number := false, is_package := false }

/-- The pack argument of the C4 witness schema. -/
def argItems : Argument :=
  { name := "items", note := "", only_number := false, is_package := true }

/-- A parser with plain argument a followed by pack items, as in the spec
    example. -/
def stC4 : CommandLineParser :=
  (AddArgumentPack ((AddArgument (mkParser "command" "") "a" "" false).2)
    "items" "" false).2

/-- C4 witness: with arguments a and pack items, one positional token is
    fatal; two bind a to the first and items to the second alone. -/
theorem C4_pack_count_and_binding_witness :
    Parse stC4 ["prog", "x"] = ParseOutcome.fatalErr
    ∧ (∃ st2, Parse stC4 ["prog", "x", "y"] = ParseOutcome.ok st2
        ∧ mapFind? st2.cur_values_ "a" = some (Value.ofString "x")
        ∧ mapFind? st2.cur_values_ "items" = some (Value.ofList ["y"])) := by
  constructor
  · exact (C4_pack_count_and_binding stC4 [argA] [] argItems "prog" ["x"]
      rfl rfl (by decide) (by decide) rfl (by decide) (by decide)
      (by decide) (by decide)).1 (by decide)
  · obtain ⟨st2, hok, hpre2, hpk2, hpost2⟩ :=
      (C4_pack_count_and_binding stC4 [argA] [] argItems "prog" ["x", "y"]
        rfl rfl (by decide) (by decide) rfl (by decide) (by decide)
        (by decide) (by decide)).2 (by decide) (by decide)
    refine ⟨st2, hok, ?_, ?_⟩
    · have h0 := hpre2 0 (by decide)
      simpa using h0
    · simpa using hpk2

/-- A parser whose schema defines a user option literally named with the
    built-in help token. -/
def stHelpOpt : CommandLineParser :=
  (AddOption (mkParser "command" "") "--help" 0 "" "" false).2

/-- The option record stHelpOpt stores. -/
def optHelp : COption :=
  { name := "--help", short_name := "", note := "", value_count := 0,
    only_number := false, index := 0 }

/-- C5 witness: a fresh parser takes both shortcuts; a parser defining the
    help name as its own option matches it instead. -/
theorem C5_help_usage_shortcut_witness :
    Parse (mkParser "command" "") ["prog", "--help"]
      = ParseOutcome.showHelp (HelpInfo { (mkParser "command" "") with
          app_path_ := "prog", cur_values_ := [] })
    ∧ Parse (mkParser "command" "") ["prog", "--usage"]
      = ParseOutcome.showUsage (UsageInfo { (mkParser "command" "") with
          app_path_ := "prog", cur_values_ := [] })
    ∧ Parse stHelpOpt ["prog", "--help"]
      = ParseOutcome.ok { stHelpOpt with
          app_path_ := "prog",
          cur_values_ := [("--help", Value.ofList [])] } :=
  C5_help_usage_shortcut (mkParser "command" "") stHelpOpt optHelp "prog"
    rfl rfl rfl rfl rfl rfl rfl
